import Mathlib

/-!
Verification of the FORTRESS ZAG security enforcement pipeline.

This file is a shallow embedding, in Lean 4, of the security-relevant
functions of the repository:

* `SecretsManager.exportForLLM`  (two-tier secrets manager)
* the close-handler result and status finalization of the sandbox executor
  (`executeProcess` / `executeWithTimeout` / `sandboxExecute` in
  `src/security/sandbox.js`)
* `sanitizeInput` and its helpers (`src/security/perimeter.js`)
* `validateCommand` and its helpers (`src/security/validator.js`)

JavaScript strings are modelled as `List Char` (all characters involved lie
in the Basic Multilingual Plane, so UTF-16 length and code-point count
agree).  JavaScript objects used as string maps are modelled as association
lists with JavaScript's update semantics.  Regular-expression tests are
modelled by an executable Brzozowski-derivative matcher.
-/

namespace FortressZag

/-! ## Environment maps (JavaScript objects used as string → string maps) -/

/-- Lookup of a key in an association-list environment map (first binding
wins; a JavaScript object holds each key at most once). -/
def lookupKey (m : List (String × String)) (k : String) : Option String :=
  match m with
  | [] => none
  | (k', v) :: rest => if k' = k then some v else lookupKey rest k

/-- Model of the JavaScript `delete env[k]` statement: remove the binding of
`k` (a JavaScript object holds each key at most once). -/
def eraseKey : List (String × String) → String → List (String × String)
  | [], _ => []
  | p :: rest, k => if p.1 = k then eraseKey rest k else p :: eraseKey rest k

/-- Model of the JavaScript `env[k] = v` statement: overwrite the binding in
place when the key exists, otherwise append it. -/
def setKey : List (String × String) → String → String → List (String × String)
  | [], k, v => [(k, v)]
  | p :: rest, k, v => if p.1 = k then (k, v) :: rest else p :: setKey rest k v

/-! ## Secrets manager (`SecretsManager`, two-tier secrets source file) -/

/-- The constructor-time `filteredKeys` list of `SecretsManager`: key names
that must be filtered from the LLM bash subprocess. -/
def filteredKeys : List String :=
  ["GITHUB_TOKEN",
   "ANTHROPIC_API_KEY",
   "OPENAI_API_KEY",
   "GOOGLE_API_KEY",
   "AWS_ACCESS_KEY_ID",
   "AWS_SECRET_ACCESS_KEY",
   "TELEGRAM_BOT_TOKEN",
   "MOONSHOT_API_KEY",
   "DISCORD_BOT_TOKEN",
   "SLACK_BOT_TOKEN",
   "NOTION_API_KEY",
   "LINEAR_API_KEY"]

/-- Embedding of `SecretsManager.exportForLLM`: copy the ambient
environment, delete every filtered key, add the LLM-accessible secrets
(in their insertion order), then delete the base64 payload variables
`SECRETS` and `LLM_SECRETS`. -/
def exportForLLM (ambient llmSecrets : List (String × String)) :
    List (String × String) :=
  let env := filteredKeys.foldl eraseKey ambient
  let env := llmSecrets.foldl (fun e p => setKey e p.1 p.2) env
  eraseKey (eraseKey env "SECRETS") "LLM_SECRETS"

/-! ### Lemmas about environment-map operations -/

theorem lookup_eraseKey_self (m : List (String × String)) (k : String) :
    lookupKey (eraseKey m k) k = none := by
  induction m with
  | nil => rfl
  | cons p rest ih =>
    by_cases h : p.1 = k
    · simpa [eraseKey, h] using ih
    · simpa [eraseKey, lookupKey, h] using ih

theorem lookup_eraseKey_ne (m : List (String × String)) (k k' : String)
    (h : k' ≠ k) : lookupKey (eraseKey m k) k' = lookupKey m k' := by
  induction m with
  | nil => rfl
  | cons p rest ih =>
    by_cases hp : p.1 = k
    · simpa [eraseKey, lookupKey, hp, Ne.symm h] using ih
    · by_cases hk : p.1 = k'
      · simp [eraseKey, lookupKey, hp, hk, h]
      · simpa [eraseKey, lookupKey, hp, hk] using ih

theorem lookup_foldl_erase_none (ks : List String)
    (m : List (String × String)) (k : String) (h : lookupKey m k = none) :
    lookupKey (ks.foldl eraseKey m) k = none := by
  induction ks generalizing m with
  | nil => exact h
  | cons k0 rest ih =>
    rw [List.foldl_cons]
    refine ih (eraseKey m k0) ?_
    by_cases hk : k = k0
    · subst hk; exact lookup_eraseKey_self m k
    · rw [lookup_eraseKey_ne m k0 k hk]; exact h

theorem lookup_foldl_erase_mem (ks : List String) (m : List (String × String))
    (k : String) (h : k ∈ ks) :
    lookupKey (ks.foldl eraseKey m) k = none := by
  induction ks generalizing m with
  | nil => cases h
  | cons k0 rest ih =>
    rw [List.foldl_cons]
    rcases List.mem_cons.mp h with h0 | hrest
    · subst h0
      exact lookup_foldl_erase_none rest (eraseKey m k) k
        (lookup_eraseKey_self m k)
    · exact ih (eraseKey m k0) hrest

theorem lookup_foldl_erase_not_mem (ks : List String)
    (m : List (String × String)) (k : String) (h : k ∉ ks) :
    lookupKey (ks.foldl eraseKey m) k = lookupKey m k := by
  induction ks generalizing m with
  | nil => rfl
  | cons k0 rest ih =>
    have hk0 : k ≠ k0 := fun e => h (e ▸ List.mem_cons_self _ _)
    have hrest : k ∉ rest := fun e => h (List.mem_cons_of_mem _ e)
    rw [List.foldl_cons, ih (eraseKey m k0) hrest,
      lookup_eraseKey_ne m k0 k hk0]

theorem lookup_setKey_self (m : List (String × String)) (k : String)
    (v : String) : lookupKey (setKey m k v) k = some v := by
  induction m with
  | nil => simp [setKey, lookupKey]
  | cons p rest ih =>
    by_cases hp : p.1 = k
    · simp [setKey, lookupKey, hp]
    · simpa [setKey, lookupKey, hp] using ih

theorem lookup_setKey_ne (m : List (String × String)) (k k' v : String)
    (h : k' ≠ k) : lookupKey (setKey m k v) k' = lookupKey m k' := by
  induction m with
  | nil => simp [setKey, lookupKey, Ne.symm h]
  | cons p rest ih =>
    by_cases hp : p.1 = k
    · have hne : k ≠ k' := Ne.symm h
      have hne2 : p.1 ≠ k' := by rw [hp]; exact hne
      simp [setKey, lookupKey, hp, hne, hne2]
    · by_cases hk' : p.1 = k'
      · simp [setKey, lookupKey, hp, hk', h]
      · simpa [setKey, lookupKey, hp, hk'] using ih

theorem lookup_none_of_not_mem (m : List (String × String)) (k : String)
    (h : k ∉ m.map Prod.fst) : lookupKey m k = none := by
  induction m with
  | nil => rfl
  | cons p rest ih =>
    have hp : p.1 ≠ k := fun e => h (by simp [e])
    have : k ∉ rest.map Prod.fst := fun e => h (by simp [e])
    simpa [lookupKey, hp] using ih this

/-- Folding `setKey` over a duplicate-free list of entries: the lookup of a
key is its entry value when present, and the original lookup otherwise. -/
theorem lookup_foldl_set (entries : List (String × String))
    (m : List (String × String)) (k : String)
    (hnd : (entries.map Prod.fst).Nodup) :
    lookupKey (entries.foldl (fun e p => setKey e p.1 p.2) m) k =
      match lookupKey entries k with
      | some v => some v
      | none => lookupKey m k := by
  induction entries generalizing m with
  | nil => simp [lookupKey]
  | cons p rest ih =>
    have hnd' : (rest.map Prod.fst).Nodup := (List.nodup_cons.mp hnd).2
    have hp : p.1 ∉ rest.map Prod.fst := (List.nodup_cons.mp hnd).1
    by_cases hk : p.1 = k
    · subst hk
      have hnone : lookupKey rest p.1 = none :=
        lookup_none_of_not_mem rest p.1 hp
      have := ih (setKey m p.1 p.2) hnd'
      rw [List.foldl_cons, this, hnone, lookup_setKey_self]
      simp [lookupKey]
    · have := ih (setKey m p.1 p.2) hnd'
      rw [List.foldl_cons, this, lookup_setKey_ne m p.1 k p.2 (Ne.symm hk)]
      simp [lookupKey, hk]

/-! ### Claim theorems about the secrets manager -/

/-- C9: for every ambient environment and every exposed tier, the map
returned by `exportForLLM` never contains the keys `SECRETS` or
`LLM_SECRETS` themselves, so the base64-encoded secret payload blobs are
never visible to a sandboxed subprocess. -/
theorem exportForLLM_payload_blobs_hidden
    (ambient llmSecrets : List (String × String)) :
    lookupKey (exportForLLM ambient llmSecrets) "SECRETS" = none ∧
    lookupKey (exportForLLM ambient llmSecrets) "LLM_SECRETS" = none := by
  unfold exportForLLM
  constructor
  · rw [lookup_eraseKey_ne _ "LLM_SECRETS" "SECRETS" (by decide)]
    exact lookup_eraseKey_self _ _
  · exact lookup_eraseKey_self _ _

/-- C1 counterexample: a protected key (`GITHUB_TOKEN` is in `filteredKeys`)
that is simultaneously present in the exposed tier IS contained in the
environment produced by `exportForLLM`, because the exposed-tier entries are
inserted after the protected keys are deleted. -/
theorem exportForLLM_protected_key_leaks :
    "GITHUB_TOKEN" ∈ filteredKeys ∧
    lookupKey (exportForLLM [] [("GITHUB_TOKEN", "tok")]) "GITHUB_TOKEN" =
      some "tok" := by
  constructor
  · decide
  · decide

/-- C1 amended: full characterization of the keys emitted by
`exportForLLM`.  The keys `SECRETS` and `LLM_SECRETS` are always absent; an
exposed-tier key is always emitted with its exposed value, even when it is
protected; any other key is absent when protected and otherwise carries its
ambient value.  In particular a protected key that is absent from the
exposed tier never appears. -/
theorem exportForLLM_key_characterization
    (ambient llmSecrets : List (String × String)) (k : String)
    (hnd : (llmSecrets.map Prod.fst).Nodup) :
    lookupKey (exportForLLM ambient llmSecrets) k =
      if k = "SECRETS" ∨ k = "LLM_SECRETS" then none
      else
        match lookupKey llmSecrets k with
        | some v => some v
        | none => if k ∈ filteredKeys then none else lookupKey ambient k := by
  unfold exportForLLM
  by_cases h2 : k = "LLM_SECRETS"
  · subst h2
    rw [lookup_eraseKey_self]
    simp
  · rw [lookup_eraseKey_ne _ "LLM_SECRETS" k h2]
    by_cases h1 : k = "SECRETS"
    · subst h1
      rw [lookup_eraseKey_self]
      simp
    · rw [lookup_eraseKey_ne _ "SECRETS" k h1]
      rw [lookup_foldl_set llmSecrets _ k hnd]
      rw [if_neg (by simp [h1, h2])]
      cases hlk : lookupKey llmSecrets k with
      | some v => simp
      | none =>
        by_cases hf : k ∈ filteredKeys
        · simp [lookup_foldl_erase_mem filteredKeys ambient k hf, hf]
        · simp [lookup_foldl_erase_not_mem filteredKeys ambient k hf, hf]

/-- Witness for C1 amended: concrete instantiation with an ambient
environment carrying a payload blob and a protected key, and an exposed tier
carrying that same protected key. -/
theorem exportForLLM_key_characterization_witness :
    (([("GITHUB_TOKEN", "t"), ("BROWSER_LOGIN", "b")] :
        List (String × String)).map Prod.fst).Nodup ∧
    lookupKey
        (exportForLLM [("SECRETS", "blob"), ("PATH", "/bin")]
          [("GITHUB_TOKEN", "t"), ("BROWSER_LOGIN", "b")]) "GITHUB_TOKEN" =
      (if ("GITHUB_TOKEN" : String) = "SECRETS" ∨
          ("GITHUB_TOKEN" : String) = "LLM_SECRETS" then none
       else
        match lookupKey [("GITHUB_TOKEN", "t"), ("BROWSER_LOGIN", "b")]
            "GITHUB_TOKEN" with
        | some v => some v
        | none =>
          if ("GITHUB_TOKEN" : String) ∈ filteredKeys then none
          else lookupKey [("SECRETS", "blob"), ("PATH", "/bin")]
            "GITHUB_TOKEN") :=
  ⟨by decide,
   exportForLLM_key_characterization
     [("SECRETS", "blob"), ("PATH", "/bin")]
     [("GITHUB_TOKEN", "t"), ("BROWSER_LOGIN", "b")] "GITHUB_TOKEN"
     (by decide)⟩

/-! ## Sandbox executor result shape (`src/security/sandbox.js`) -/

/-- Result record assembled by the `close` handlers of `executeProcess` and
`executeWithTimeout` in `src/security/sandbox.js`.  `exitCode = none` models
the `null` exit code Node.js reports when the child process was terminated
by a signal. -/
structure ProcessResult where
  success : Bool
  exitCode : Option Int
  killed : Bool
  stdout : List Char
  stderr : List Char

/-- The `close` handler of `executeProcess` / `executeWithTimeout`: the
`killed` flag is set by the timeout handler alone, and
`success: code === 0 && !killed`. -/
def closeResult (killed : Bool) (code : Option Int)
    (stdout stderr : List Char) : ProcessResult :=
  { success := code == some 0 && !killed
    exitCode := code
    killed := killed
    stdout := stdout
    stderr := stderr }

/-- Finalization in `sandboxExecute`:
`sandbox.status = sandbox.result.success ? 'completed' : 'failed'`. -/
def sandboxStatus (result : ProcessResult) : String :=
  if result.success then "completed" else "failed"

/-- C3 counterexample: an execution terminated by the timeout (the timeout
handler set `killed` before delivering the signals; the child then closed
with a `null` exit code) is finalized with status `"failed"`, not the
claimed `"killed"`. -/
theorem timeout_status_not_killed :
    (closeResult true none [] []).killed = true ∧
    sandboxStatus (closeResult true none [] []) = "failed" ∧
    sandboxStatus (closeResult true none [] []) ≠ "killed" := by
  refine ⟨rfl, rfl, by decide⟩

/-- C3 amended: every execution terminated by the timeout (`killed = true`,
whatever exit code and output were observed) records `killed = true`, is a
failure (`success = false`), and is finalized with status `"failed"` —
never a success and never a hang, but also never the status `"killed"`. -/
theorem timeout_kill_is_failure (code : Option Int)
    (stdout stderr : List Char) :
    (closeResult true code stdout stderr).killed = true ∧
    (closeResult true code stdout stderr).success = false ∧
    sandboxStatus (closeResult true code stdout stderr) = "failed" := by
  refine ⟨rfl, ?_, ?_⟩
  · simp [closeResult]
  · simp [sandboxStatus, closeResult]

/-! ## Character classes and an executable regular-expression matcher

The JavaScript sources test inputs against regular-expression literals.
They are embedded as regular expressions over `Char` and matched with an
executable Brzozowski-derivative matcher; `rtest` has the semantics of
JavaScript `RegExp.prototype.test` for patterns without anchors.
`String.prototype.toLowerCase` and the `i` flag are modelled on ASCII
letters (every cased character exercised by the patterns and inputs in
this development is an ASCII letter). -/

/-- The character set of the JavaScript regular-expression class `\s`
(also the set trimmed by `String.prototype.trim`). -/
def wsChars : List Char :=
  ['\t', '\n', '\u000B', '\u000C', '\r', ' ',
   '\u00A0', '\u1680', '\u2000', '\u2001', '\u2002', '\u2003', '\u2004',
   '\u2005', '\u2006', '\u2007', '\u2008', '\u2009', '\u200A', '\u2028',
   '\u2029', '\u202F', '\u205F', '\u3000', '\uFEFF']

def isWsJS (c : Char) : Bool := wsChars.contains c

/-- The JavaScript regular-expression class `\w`: `[A-Za-z0-9_]`. -/
def isWordJS (c : Char) : Bool := c.isAlphanum || c == '_'

inductive Rx where
  | emp : Rx
  | eps : Rx
  | cls : (Char → Bool) → Rx
  | seq : Rx → Rx → Rx
  | alt : Rx → Rx → Rx
  | star : Rx → Rx

def Rx.nullable : Rx → Bool
  | .emp => false
  | .eps => true
  | .cls _ => false
  | .seq a b => a.nullable && b.nullable
  | .alt a b => a.nullable || b.nullable
  | .star _ => true

/-- Smart sequencing (keeps derivatives small). -/
def mkSeq (a b : Rx) : Rx :=
  match a, b with
  | .emp, _ => .emp
  | _, .emp => .emp
  | .eps, b => b
  | a, .eps => a
  | a, b => .seq a b

/-- Smart alternation (keeps derivatives small). -/
def mkAlt (a b : Rx) : Rx :=
  match a, b with
  | .emp, b => b
  | a, .emp => a
  | a, b => .alt a b

def Rx.deriv : Rx → Char → Rx
  | .emp, _ => .emp
  | .eps, _ => .emp
  | .cls p, c => if p c then .eps else .emp
  | .seq a b, c =>
    if a.nullable then mkAlt (mkSeq (a.deriv c) b) (b.deriv c)
    else mkSeq (a.deriv c) b
  | .alt a b, c => mkAlt (a.deriv c) (b.deriv c)
  | .star a, c => mkSeq (a.deriv c) (.star a)

/-- Does `r` match some prefix of `s` (including the empty prefix)? -/
def matchesFrom : Rx → List Char → Bool
  | r, [] => r.nullable
  | r, c :: cs => r.nullable || matchesFrom (r.deriv c) cs

/-- Does `r` match some substring of `s`?  This is unanchored
`RegExp.prototype.test`. -/
def rtest : Rx → List Char → Bool
  | r, [] => r.nullable
  | r, c :: cs => matchesFrom r (c :: cs) || rtest r cs

def rchar (c : Char) : Rx := .cls (fun x => x == c)

/-- Case-insensitive single character (for patterns carrying the `i` flag);
`c` must be given in lower case. -/
def rcharI (c : Char) : Rx := .cls (fun x => x.toLower == c)

def rstr (s : String) : Rx := s.toList.foldr (fun c acc => mkSeq (rchar c) acc) .eps

def rstrI (s : String) : Rx := s.toList.foldr (fun c acc => mkSeq (rcharI c) acc) .eps

def rseq (rs : List Rx) : Rx := rs.foldr mkSeq .eps

def ralt : List Rx → Rx
  | [] => .emp
  | r :: rest => mkAlt r (ralt rest)

def ropt (r : Rx) : Rx := Rx.alt r .eps

def rplus (r : Rx) : Rx := mkSeq r (.star r)

/-- The pattern `\s*`. -/
def rws0 : Rx := .star (.cls isWsJS)

/-- The pattern `\s+`. -/
def rws1 : Rx := rplus (.cls isWsJS)

def rrep (r : Rx) : Nat → Rx
  | 0 => .eps
  | n + 1 => mkSeq r (rrep r n)

/-- The pattern `r{n,}`. -/
def ratleast (r : Rx) (n : Nat) : Rx := mkSeq (rrep r n) (.star r)

/-! ## Perimeter sanitizer (`src/security/perimeter.js`)

All `CONFIG` feature flags of the source are `true` and are inlined. -/

/-- `ZERO_WIDTH_CHARS` of perimeter.js. -/
def ZERO_WIDTH_CHARS : List Char :=
  ['\u200B', '\u200C', '\u200D', '\u2060', '\uFEFF']

/-- `BIDI_CHARS` of perimeter.js. -/
def BIDI_CHARS : List Char :=
  ['\u202A', '\u202B', '\u202C', '\u202D', '\u202E',
   '\u2066', '\u2067', '\u2068', '\u2069']

/-- `HOMOGRAPHS` of perimeter.js: Cyrillic/Latin look-alike pairs. -/
def HOMOGRAPHS : List (Char × Char) :=
  [('\u0430', 'a'), ('\u0435', 'e'), ('\u043E', 'o'),
   ('\u0440', 'p'), ('\u0441', 'c'), ('\u0445', 'x')]

/-- `CONFIG.maxInputLength`. -/
def maxInputLength : Nat := 100000

/-- `CONFIG.maxNestingDepth`. -/
def maxNestingDepth : Int := 10

/-- Models ECMAScript `String.prototype.normalize('NFKC')` restricted to the
character repertoire exercised in this development: every character used
here is NFKC-stable in isolation (ASCII, the Cyrillic homograph letters,
the zero-width and bidi control characters), and the only canonically
composable adjacent pair is Latin small letter a (U+0061) followed by
combining acute accent (U+0301), which composes to U+00E1; Cyrillic а
(U+0430) has no precomposed combination with U+0301, so that pair is left
unchanged. -/
def nfkcModel : List Char → List Char
  | [] => []
  | 'a' :: '\u0301' :: rest => '\u00E1' :: nfkcModel rest
  | c :: rest => c :: nfkcModel rest

/-- `removeZeroWidthChars`: the source splits on each zero-width character
and re-joins, i.e. removes every occurrence of each of them in turn. -/
def removeZeroWidthChars (text : List Char) : List Char :=
  ZERO_WIDTH_CHARS.foldl (fun res ch => res.filter (fun c => c != ch)) text

/-- Formats a character as the source's `U+XXXX` evidence string. -/
def hexDigitChar (n : Nat) : Char :=
  if n < 10 then Char.ofNat (48 + n) else Char.ofNat (55 + n)

def formatUPlus (c : Char) : String :=
  ⟨'U' :: '+' ::
    [hexDigitChar (c.toNat / 4096 % 16), hexDigitChar (c.toNat / 256 % 16),
     hexDigitChar (c.toNat / 16 % 16), hexDigitChar (c.toNat % 16)]⟩

/-- `detectBidiChars`: the `U+XXXX` codes of the bidi control characters
present in the text, in `BIDI_CHARS` order. -/
def detectBidiChars (text : List Char) : List String :=
  (BIDI_CHARS.filter (fun ch => text.contains ch)).map formatUPlus

/-- `detectHomographs`: the homograph pairs whose Cyrillic member occurs in
the text, in table order (the source also records the `U+...` code, which
is determined by the pair). -/
def detectHomographs (text : List Char) : List (Char × Char) :=
  HOMOGRAPHS.filter (fun p => text.contains p.1)

/-- One `split(cyrillic).join(latin)` step of `normalizeHomographs`. -/
def homographStep (res : List Char) (p : Char × Char) : List Char :=
  res.map (fun c => if c = p.1 then p.2 else c)

def normalizeHomographs (text : List Char) : List Char :=
  HOMOGRAPHS.foldl homographStep text

/-- `INJECTION_PATTERNS` of perimeter.js, in source order (all carry the
`i` flag). -/
def INJECTION_PATTERNS : List Rx :=
  [rseq [rstrI "ignore", rws1, ralt [rstrI "previous", rstrI "earlier", rstrI "above", rstrI "prior"]],
   rseq [rstrI "forget", rws1, ralt [rstrI "everything", rstrI "all", rstrI "previous", rstrI "context"]],
   rseq [rstrI "disregard", rws1, ralt [rstrI "system", mkSeq (rstrI "instruction") (ropt (rcharI 's')), rstrI "prompt"]],
   rseq [rstrI "system", rws0, ralt [rstrI "override", rstrI "prompt", rstrI "instruction"]],
   rseq [rstrI "you", rws1, rstrI "are", rws1, rstrI "now", rws1],
   rseq [rstrI "new", rws1, ralt [rstrI "role", rstrI "personality", rstrI "mode"]],
   rseq [rstrI "administrator", rws1, rstrI "say", ropt (rcharI 's')],
   rseq [rstrI "developer", rws1, rstrI "mode"],
   rseq [rstrI "dan", rws0, ralt [rstrI "mode", rstrI "do anything now"]],
   rstrI "jailbreak",
   rseq [rstr "```", rws0, rstrI "system"],
   rseq [rstr "```", rws0, rstrI "ignore"],
   rseq [rstr "<!--", rws0, rstrI "system"],
   rseq [rstr "//", rws0, rstrI "system"],
   rseq [rstrI "context", rws0, rstrI "window", rws0, ralt [rstrI "ignore", rstrI "bypass"]],
   rseq [rstrI "token", rws0, rstrI "overflow"],
   rseq [rstrI "attention", rws0, rstrI "override"]]

/-- `detectPromptInjection`: the indices of the matching patterns, in
order (the source records the pattern source text and a truncated match,
both determined by the pattern index and the text). -/
def detectPromptInjection (text : List Char) : List Nat :=
  (INJECTION_PATTERNS.enum.filter (fun p => rtest p.2 text)).map Prod.fst

/-- Substring containment (JavaScript `String.prototype.includes`). -/
def containsSub (pat : List Char) : List Char → Bool
  | [] => pat.isPrefixOf ([] : List Char)
  | c :: rest => pat.isPrefixOf (c :: rest) || containsSub pat rest

/-- Index of the first occurrence of `pat` in the string. -/
def firstOccur (pat : List Char) : List Char → Option Nat
  | [] => if pat.isPrefixOf ([] : List Char) then some 0 else none
  | c :: rest =>
    if pat.isPrefixOf (c :: rest) then some 0
    else (firstOccur pat rest).map (· + 1)

/-- Leftmost match of the lazy delimiter pattern `op[\s\S]*?cl` (as in
`DELIMITER_PATTERNS`): the earliest opening delimiter that is followed by a
closing delimiter, paired with its nearest close. -/
def firstDelimMatch (op cl : List Char) : List Char → Option (List Char)
  | [] => none
  | c :: rest =>
    if op.isPrefixOf (c :: rest) then
      match firstOccur cl ((c :: rest).drop op.length) with
      | some j => some ((c :: rest).take (op.length + j + cl.length))
      | none => firstDelimMatch op cl rest
    else firstDelimMatch op cl rest

structure DelimiterReport where
  found : List (String × Nat)
  suspicious : Bool
deriving DecidableEq

/-- `DELIMITER_PATTERNS` of perimeter.js: name, opening and closing
delimiter of each lazy pattern, in source order. -/
def delimiterSpecs : List (String × List Char × List Char) :=
  [("code-block", "```".toList, "```".toList),
   ("html-comment", "<!--".toList, "-->".toList),
   ("c-comment", "/*".toList, "*/".toList),
   ("sgml-declaration", "<!".toList, ">".toList)]

/-- The source's suspicious-content test on a delimiter match: strip three
characters from each side (`match.slice(3, -3)`), lowercase, and look for
override-style keywords. -/
def innerSuspicious (m : List Char) : Bool :=
  let inner := ((m.drop 3).take (m.length - 6)).map Char.toLower
  containsSub "system".toList inner || containsSub "ignore".toList inner ||
    containsSub "override".toList inner

/-- `detectDelimiters`: for each delimiter pattern with a match, record a
found entry (the count is `matches.length`, which is 1 for a non-global
regex) and accumulate suspiciousness of the match's inner content. -/
def detectDelimiters (text : List Char) : DelimiterReport :=
  delimiterSpecs.foldl
    (fun rep spec =>
      match firstDelimMatch spec.2.1 spec.2.2 text with
      | some m =>
        { found := rep.found ++ [(spec.1, 1)]
          suspicious := rep.suspicious || innerSuspicious m }
      | none => rep)
    ⟨[], false⟩

def bracketOpens : List Char := ['(', '[', '{', '<']

def bracketCloses : List Char := [')', ']', '}', '>']

/-- One character step of `calculateNestingDepth` (current depth, maximum
depth seen). -/
def nestStep : Int × Int → Char → Int × Int
  | (cur, mx), c =>
    if bracketOpens.contains c then (cur + 1, max mx (cur + 1))
    else if bracketCloses.contains c then (cur - 1, mx)
    else (cur, mx)

def calculateNestingDepth (text : List Char) : Int :=
  (text.foldl nestStep (0, 0)).2

/-- A `ThreatFinding` pushed by `sanitizeInput`, with the payload each
branch of the source records. -/
inductive Threat where
  | sizeLimit (len : Nat)
  | bidiOverride (chars : List String)
  | homographAttack (findings : List (Char × Char))
  | promptInjection (patterns : List Nat)
  | delimiterConfusion (details : DelimiterReport)
  | nestingDepth (depth : Int)
deriving DecidableEq

def Threat.severity : Threat → String
  | .sizeLimit _ => "high"
  | .bidiOverride _ => "critical"
  | .homographAttack _ => "high"
  | .promptInjection _ => "critical"
  | .delimiterConfusion _ => "high"
  | .nestingDepth _ => "medium"

def Threat.kind : Threat → String
  | .sizeLimit _ => "size-limit"
  | .bidiOverride _ => "bidi-override"
  | .homographAttack _ => "homograph-attack"
  | .promptInjection _ => "prompt-injection"
  | .delimiterConfusion _ => "delimiter-confusion"
  | .nestingDepth _ => "nesting-depth"

structure SanitizationResult where
  originalLength : Nat
  sanitized : List Char
  actions : List String
  threats : List Threat
  blocked : Bool
deriving DecidableEq

/-- The action string `removed-N-zero-width-chars`. -/
def zwAction (n : Nat) : String :=
  "removed-" ++ toString n ++ "-zero-width-chars"

/-- Embedding of `sanitizeInput` (perimeter.js).  The eight checks run in
source order; the size check returns immediately; Unicode normalization,
zero-width stripping and homograph substitution update `sanitized`; bidi
detection runs on the original input; injection, delimiter and nesting
checks run on the current `sanitized` text.  `blocked` is set by the size,
bidi and prompt-injection branches only. -/
def sanitizeInput (input : List Char) : SanitizationResult :=
  if input.length > maxInputLength then
    { originalLength := input.length
      sanitized := input
      actions := []
      threats := [.sizeLimit input.length]
      blocked := true }
  else
    let s1 := nfkcModel input
    let a1 : List String := if s1 ≠ input then ["unicode-normalized"] else []
    let s2 := removeZeroWidthChars s1
    let a2 := if s2 ≠ s1 then a1 ++ [zwAction (s1.length - s2.length)] else a1
    let bidi := detectBidiChars input
    let homos := detectHomographs s2
    let s3 := if homos ≠ [] then normalizeHomographs s2 else s2
    let a3 := if homos ≠ [] then a2 ++ ["homographs-normalized"] else a2
    let inj := detectPromptInjection s3
    let delim := detectDelimiters s3
    let depth := calculateNestingDepth s3
    { originalLength := input.length
      sanitized := s3
      actions := a3
      threats :=
        (if bidi ≠ [] then [.bidiOverride bidi] else [])
          ++ (if homos ≠ [] then [.homographAttack homos] else [])
          ++ (if inj ≠ [] then [.promptInjection inj] else [])
          ++ (if delim.suspicious then [.delimiterConfusion delim] else [])
          ++ (if depth > maxNestingDepth then [.nestingDepth depth] else [])
      blocked := !bidi.isEmpty || !inj.isEmpty }

/-! ### Support lemmas about the sanitizer's text transformations -/

theorem mem_foldl_filter (ks : List Char) (s : List Char) (c : Char)
    (h : c ∈ ks.foldl (fun res ch => res.filter (fun x => x != ch)) s) :
    c ∈ s ∧ ∀ k ∈ ks, c ≠ k := by
  induction ks generalizing s with
  | nil => exact ⟨h, by simp⟩
  | cons k0 rest ih =>
    rw [List.foldl_cons] at h
    obtain ⟨hmem, hrest⟩ := ih (s.filter (fun x => x != k0)) h
    have := List.mem_filter.mp hmem
    refine ⟨this.1, ?_⟩
    intro k hk
    rcases List.mem_cons.mp hk with rfl | hk'
    · simpa using this.2
    · exact hrest k hk'

theorem foldl_filter_id (ks : List Char) (s : List Char)
    (h : ∀ c ∈ s, c ∉ ks) :
    ks.foldl (fun res ch => res.filter (fun x => x != ch)) s = s := by
  induction ks generalizing s with
  | nil => rfl
  | cons k0 rest ih =>
    rw [List.foldl_cons]
    have hf : s.filter (fun x => x != k0) = s := by
      apply List.filter_eq_self.mpr
      intro c hc
      have hne : c ≠ k0 := fun e => h c hc (e ▸ List.mem_cons_self _ _)
      simpa using hne
    rw [hf]
    exact ih s (fun c hc hk => h c hc (List.mem_cons_of_mem _ hk))

theorem mem_removeZeroWidthChars (s : List Char) (c : Char)
    (h : c ∈ removeZeroWidthChars s) :
    c ∈ s ∧ c ∉ ZERO_WIDTH_CHARS := by
  obtain ⟨h1, h2⟩ := mem_foldl_filter ZERO_WIDTH_CHARS s c h
  exact ⟨h1, fun hc => h2 c hc rfl⟩

theorem removeZeroWidthChars_id (s : List Char)
    (h : ∀ c ∈ s, c ∉ ZERO_WIDTH_CHARS) :
    removeZeroWidthChars s = s :=
  foldl_filter_id ZERO_WIDTH_CHARS s h

theorem mem_foldl_homographStep (ps : List (Char × Char)) (s : List Char)
    (c : Char) (h : c ∈ ps.foldl homographStep s) :
    c ∈ s ∨ c ∈ ps.map Prod.snd := by
  induction ps generalizing s with
  | nil => exact Or.inl h
  | cons p rest ih =>
    rw [List.foldl_cons] at h
    rcases ih (homographStep s p) h with hmem | hval
    · obtain ⟨d, hd, hdc⟩ := List.mem_map.mp hmem
      by_cases hdp : d = p.1
      · subst hdc
        right
        simp [hdp]
      · subst hdc
        left
        simpa [hdp] using hd
    · right
      exact List.mem_cons_of_mem _ hval

theorem foldl_homographStep_preserves (ps : List (Char × Char))
    (s : List Char) (k : Char) (hvals : ∀ p ∈ ps, p.2 ≠ k)
    (habs : ∀ c ∈ s, c ≠ k) :
    ∀ c ∈ ps.foldl homographStep s, c ≠ k := by
  induction ps generalizing s with
  | nil => exact habs
  | cons p rest ih =>
    rw [List.foldl_cons]
    refine ih (homographStep s p) (fun q hq => hvals q (List.mem_cons_of_mem _ hq)) ?_
    intro c hc
    obtain ⟨d, hd, hdc⟩ := List.mem_map.mp hc
    by_cases hdp : d = p.1
    · subst hdc
      simpa [hdp] using hvals p (List.mem_cons_self _ _)
    · subst hdc
      simpa [hdp] using habs d hd

theorem foldl_homographStep_kills (ps : List (Char × Char)) (s : List Char)
    (k : Char) (hvals : ∀ p ∈ ps, p.2 ≠ k) (hk : k ∈ ps.map Prod.fst) :
    ∀ c ∈ ps.foldl homographStep s, c ≠ k := by
  induction ps generalizing s with
  | nil => simp at hk
  | cons p rest ih =>
    rw [List.foldl_cons]
    rcases List.mem_cons.mp hk with h0 | hrest
    · refine foldl_homographStep_preserves rest (homographStep s p) k
        (fun q hq => hvals q (List.mem_cons_of_mem _ hq)) ?_
      intro c hc
      obtain ⟨d, hd, hdc⟩ := List.mem_map.mp hc
      by_cases hdp : d = p.1
      · subst hdc
        simpa [hdp] using hvals p (List.mem_cons_self _ _)
      · subst hdc
        simp only [if_neg hdp]
        exact fun e => hdp (e.trans h0)
    · exact ih (homographStep s p)
        (fun q hq => hvals q (List.mem_cons_of_mem _ hq)) hrest

/-- No Latin value of the homograph table is itself a table key. -/
theorem homograph_vals_ne_keys :
    ∀ p ∈ HOMOGRAPHS, ∀ k ∈ HOMOGRAPHS.map Prod.fst, p.2 ≠ k := by decide

/-- After homograph normalization, no confusable (table key) remains. -/
theorem key_not_in_normalizeHomographs (s : List Char) (k : Char)
    (hk : k ∈ HOMOGRAPHS.map Prod.fst) :
    ∀ c ∈ normalizeHomographs s, c ≠ k :=
  foldl_homographStep_kills HOMOGRAPHS s k
    (fun p hp => homograph_vals_ne_keys p hp k hk) hk

theorem detectHomographs_normalizeHomographs (s : List Char) :
    detectHomographs (normalizeHomographs s) = [] := by
  unfold detectHomographs
  rw [List.filter_eq_nil_iff]
  intro p hp h
  have hmem : p.1 ∈ normalizeHomographs s := by simpa using h
  exact key_not_in_normalizeHomographs s p.1
    (List.mem_map.mpr ⟨p, hp, rfl⟩) p.1 hmem rfl

theorem homographStep_id (s : List Char) (p : Char × Char)
    (h : ∀ c ∈ s, c ≠ p.1) : homographStep s p = s := by
  unfold homographStep
  induction s with
  | nil => rfl
  | cons c rest ih =>
    have hc : c ≠ p.1 := h c (List.mem_cons_self _ _)
    rw [List.map_cons, if_neg hc, ih (fun d hd => h d (List.mem_cons_of_mem _ hd))]

theorem normalizeHomographs_id (s : List Char)
    (h : detectHomographs s = []) : normalizeHomographs s = s := by
  have habs : ∀ p ∈ HOMOGRAPHS, ∀ c ∈ s, c ≠ p.1 := by
    intro p hp c hc he
    have := List.filter_eq_nil_iff.mp h p hp
    exact this (by simpa using he ▸ hc)
  unfold normalizeHomographs
  generalize hps : HOMOGRAPHS = ps at habs
  clear hps h
  induction ps with
  | nil => rfl
  | cons p rest ih =>
    rw [List.foldl_cons, homographStep_id s p (habs p (List.mem_cons_self _ _))]
    exact ih (fun q hq => habs q (List.mem_cons_of_mem _ hq))

/-- The sanitized text of a non-oversized input is always the homograph
normalization of the zero-width-stripped, NFKC-normalized input (when no
homograph is detected the substitution is the identity). -/
theorem sanitizeInput_sanitized_eq (x : List Char)
    (hs : ¬ x.length > maxInputLength) :
    (sanitizeInput x).sanitized =
      normalizeHomographs (removeZeroWidthChars (nfkcModel x)) := by
  by_cases h : detectHomographs (removeZeroWidthChars (nfkcModel x)) = []
  · simp [sanitizeInput, hs, h, normalizeHomographs_id _ h]
  · simp [sanitizeInput, hs, h]

/-- The blocked flag of a non-oversized input is set by the bidi check (on
the original input) and the prompt-injection check (on the sanitized
text). -/
theorem sanitizeInput_blocked_eq (x : List Char)
    (hs : ¬ x.length > maxInputLength) :
    (sanitizeInput x).blocked =
      (!(detectBidiChars x).isEmpty ||
        !(detectPromptInjection
            (normalizeHomographs (removeZeroWidthChars (nfkcModel x)))).isEmpty) := by
  by_cases h : detectHomographs (removeZeroWidthChars (nfkcModel x)) = []
  · simp [sanitizeInput, hs, h, normalizeHomographs_id _ h]
  · simp [sanitizeInput, hs, h]

/-- The threat list of a non-oversized input, stage by stage. -/
theorem sanitizeInput_threats_eq (x : List Char)
    (hs : ¬ x.length > maxInputLength) :
    (sanitizeInput x).threats =
      (if detectBidiChars x ≠ [] then
        [Threat.bidiOverride (detectBidiChars x)] else [])
      ++ (if detectHomographs (removeZeroWidthChars (nfkcModel x)) ≠ [] then
        [Threat.homographAttack
          (detectHomographs (removeZeroWidthChars (nfkcModel x)))] else [])
      ++ (if detectPromptInjection
            (normalizeHomographs (removeZeroWidthChars (nfkcModel x))) ≠ [] then
        [Threat.promptInjection (detectPromptInjection
          (normalizeHomographs (removeZeroWidthChars (nfkcModel x))))] else [])
      ++ (if (detectDelimiters
            (normalizeHomographs (removeZeroWidthChars (nfkcModel x)))).suspicious then
        [Threat.delimiterConfusion (detectDelimiters
          (normalizeHomographs (removeZeroWidthChars (nfkcModel x))))] else [])
      ++ (if calculateNestingDepth
            (normalizeHomographs (removeZeroWidthChars (nfkcModel x)))
            > maxNestingDepth then
        [Threat.nestingDepth (calculateNestingDepth
          (normalizeHomographs (removeZeroWidthChars (nfkcModel x))))] else []) := by
  by_cases h : detectHomographs (removeZeroWidthChars (nfkcModel x)) = []
  · simp [sanitizeInput, hs, h, normalizeHomographs_id _ h]
  · simp [sanitizeInput, hs, h]

/-- C5: every input containing a character from the bidi-override/isolate
set is blocked by `sanitizeInput`, be it through the size check (oversized
inputs are blocked outright) or through the bidi detection stage, which
runs on the original input. -/
theorem bidi_always_blocks (input : List Char)
    (h : ∃ c ∈ BIDI_CHARS, c ∈ input) :
    (sanitizeInput input).blocked = true := by
  by_cases hs : input.length > maxInputLength
  · simp [sanitizeInput, hs]
  · have hb : detectBidiChars input ≠ [] := by
      rcases h with ⟨c, hc, hin⟩
      intro he
      have hmm : c ∈ BIDI_CHARS.filter (fun ch => input.contains ch) :=
        List.mem_filter.mpr ⟨hc, by simpa using hin⟩
      have hmem : formatUPlus c ∈ detectBidiChars input :=
        List.mem_map.mpr ⟨c, hmm, rfl⟩
      rw [he] at hmem
      cases hmem
    rw [sanitizeInput_blocked_eq input hs]
    rcases hx : detectBidiChars input with _ | ⟨a, as⟩
    · exact absurd hx hb
    · simp

/-- Witness for C5 at a concrete input containing U+202E (RLO). -/
theorem bidi_always_blocks_witness :
    (∃ c ∈ BIDI_CHARS, c ∈ ['h', 'i', '‮']) ∧
    (sanitizeInput ['h', 'i', '‮']).blocked = true :=
  ⟨by decide, bidi_always_blocks _ (by decide)⟩

/-- C6: an oversized input short-circuits at the size check: the result is
blocked with exactly one threat, of kind size-limit, and no other stage
runs. -/
theorem size_limit_short_circuits (input : List Char)
    (h : input.length > maxInputLength) :
    sanitizeInput input =
      { originalLength := input.length
        sanitized := input
        actions := []
        threats := [Threat.sizeLimit input.length]
        blocked := true } := by
  unfold sanitizeInput
  rw [if_pos h]

/-- Witness for C6 at a concrete input of 100001 characters. -/
theorem size_limit_short_circuits_witness :
    (List.replicate 100001 'a').length > maxInputLength ∧
    sanitizeInput (List.replicate 100001 'a') =
      { originalLength := (List.replicate 100001 'a').length
        sanitized := List.replicate 100001 'a'
        actions := []
        threats := [Threat.sizeLimit (List.replicate 100001 'a').length]
        blocked := true } :=
  ⟨by rw [List.length_replicate]; decide,
   size_limit_short_circuits _ (by rw [List.length_replicate]; decide)⟩

/-- The size-check branch returns the raw input as `sanitized`. -/
theorem sanitize_oversize_raw (y : List Char)
    (h : y.length > maxInputLength) : (sanitizeInput y).sanitized = y := by
  unfold sanitizeInput
  rw [if_pos h]

/-- C10: when the size check blocks, the returned sanitized text is the raw
original input with no processing applied, and the action list is empty. -/
theorem size_block_returns_raw_input (input : List Char)
    (h : input.length > maxInputLength) :
    (sanitizeInput input).sanitized = input ∧
    (sanitizeInput input).actions = [] ∧
    (sanitizeInput input).blocked = true := by
  unfold sanitizeInput
  rw [if_pos h]
  exact ⟨rfl, rfl, rfl⟩

/-- Witness for C10 at a concrete input of 100001 characters. -/
theorem size_block_returns_raw_input_witness :
    (List.replicate 100001 'b').length > maxInputLength ∧
    ((sanitizeInput (List.replicate 100001 'b')).sanitized =
        List.replicate 100001 'b' ∧
      (sanitizeInput (List.replicate 100001 'b')).actions = [] ∧
      (sanitizeInput (List.replicate 100001 'b')).blocked = true) :=
  ⟨by rw [List.length_replicate]; decide,
   size_block_returns_raw_input _ (by rw [List.length_replicate]; decide)⟩

/-- C8: an input that is not oversized, has no bidi character and no
prompt-injection match (otherwise benign) but contains Cyrillic а (U+0430)
is not blocked; its sanitized text is the homograph substitution of the
stripped text, which contains no Cyrillic а anymore; and exactly one
homograph threat finding is recorded. -/
theorem homograph_normalized_not_blocked (input : List Char)
    (hlen : ¬ input.length > maxInputLength)
    (hbidi : detectBidiChars input = [])
    (hcyr : 'а' ∈ removeZeroWidthChars (nfkcModel input))
    (hinj : detectPromptInjection
      (normalizeHomographs (removeZeroWidthChars (nfkcModel input))) = []) :
    (sanitizeInput input).blocked = false ∧
    (sanitizeInput input).sanitized =
      normalizeHomographs (removeZeroWidthChars (nfkcModel input)) ∧
    (∀ c ∈ (sanitizeInput input).sanitized, c ≠ 'а') ∧
    ((sanitizeInput input).threats.filter
        (fun t => t.kind == "homograph-attack")).length = 1 := by
  have hsan := sanitizeInput_sanitized_eq input hlen
  have hhom_ne :
      detectHomographs (removeZeroWidthChars (nfkcModel input)) ≠ [] := by
    intro he
    have hmm : ('а', 'a') ∈
        detectHomographs (removeZeroWidthChars (nfkcModel input)) :=
      List.mem_filter.mpr ⟨by decide, by simpa using hcyr⟩
    rw [he] at hmm
    cases hmm
  refine ⟨?_, hsan, ?_, ?_⟩
  · rw [sanitizeInput_blocked_eq input hlen, hbidi, hinj]
    rfl
  · rw [hsan]
    exact key_not_in_normalizeHomographs _ _ (by decide)
  · rw [sanitizeInput_threats_eq input hlen]
    by_cases hd : (detectDelimiters
        (normalizeHomographs (removeZeroWidthChars (nfkcModel input)))).suspicious <;>
      by_cases hn : calculateNestingDepth
          (normalizeHomographs (removeZeroWidthChars (nfkcModel input)))
          > maxNestingDepth <;>
      simp [hbidi, hinj, hhom_ne, hd, hn, Threat.kind]

/-- Witness for C8 at the concrete input c, Cyrillic а, t. -/
theorem homograph_normalized_not_blocked_witness :
    (¬ (['c', 'а', 't'] : List Char).length > maxInputLength) ∧
    detectBidiChars ['c', 'а', 't'] = [] ∧
    'а' ∈ removeZeroWidthChars (nfkcModel ['c', 'а', 't']) ∧
    ((sanitizeInput ['c', 'а', 't']).blocked = false ∧
      (sanitizeInput ['c', 'а', 't']).sanitized =
        normalizeHomographs (removeZeroWidthChars (nfkcModel ['c', 'а', 't'])) ∧
      (∀ c ∈ (sanitizeInput ['c', 'а', 't']).sanitized, c ≠ 'а') ∧
      ((sanitizeInput ['c', 'а', 't']).threats.filter
          (fun t => t.kind == "homograph-attack")).length = 1) :=
  ⟨by decide, by decide, by decide,
   homograph_normalized_not_blocked _ (by decide) (by decide) (by decide)
     (by decide)⟩

/-- No Latin value of the homograph table is a zero-width character. -/
theorem homograph_vals_not_zw :
    ∀ c ∈ HOMOGRAPHS.map Prod.snd, c ∉ ZERO_WIDTH_CHARS := by decide

/-- C7 counterexample: sanitization is NOT idempotent on its own output.
For the non-blocked input Cyrillic а followed by combining acute (U+0301),
homograph substitution produces Latin a followed by U+0301, which the
second pass NFKC-composes into U+00E1, so re-sanitizing changes the text. -/
theorem sanitize_not_idempotent :
    (sanitizeInput ['а', '́']).blocked = false ∧
    (sanitizeInput ((sanitizeInput ['а', '́']).sanitized)).sanitized ≠
      (sanitizeInput ['а', '́']).sanitized :=
  ⟨by decide, by decide⟩

/-- C7 amended: sanitization is idempotent on every non-blocked input whose
sanitized output is NFKC-stable (re-normalizing it changes nothing); the
counterexample shows the unconditional claim fails when zero-width
stripping or homograph substitution creates a newly composable sequence. -/
theorem sanitize_idempotent_on_stable_text (x : List Char)
    (hb : (sanitizeInput x).blocked = false)
    (hstable : nfkcModel ((sanitizeInput x).sanitized) =
      (sanitizeInput x).sanitized) :
    (sanitizeInput ((sanitizeInput x).sanitized)).sanitized =
      (sanitizeInput x).sanitized := by
  by_cases hs : x.length > maxInputLength
  · exfalso
    have hbt : (sanitizeInput x).blocked = true := by simp [sanitizeInput, hs]
    rw [hb] at hbt
    cases hbt
  · have hyeq : (sanitizeInput x).sanitized =
        normalizeHomographs (removeZeroWidthChars (nfkcModel x)) :=
      sanitizeInput_sanitized_eq x hs
    have hyzw : ∀ c ∈ (sanitizeInput x).sanitized, c ∉ ZERO_WIDTH_CHARS := by
      intro c hc
      rw [hyeq] at hc
      rcases mem_foldl_homographStep HOMOGRAPHS _ c hc with h1 | h2
      · exact (mem_removeZeroWidthChars _ c h1).2
      · exact homograph_vals_not_zw c h2
    have hyhom : detectHomographs ((sanitizeInput x).sanitized) = [] := by
      rw [hyeq]
      exact detectHomographs_normalizeHomographs _
    by_cases hs' : ((sanitizeInput x).sanitized).length > maxInputLength
    · exact sanitize_oversize_raw _ hs'
    · rw [sanitizeInput_sanitized_eq _ hs', hstable,
        removeZeroWidthChars_id _ hyzw, normalizeHomographs_id _ hyhom]

/-- Witness for C7 amended at the concrete input p, Cyrillic а, y. -/
theorem sanitize_idempotent_on_stable_text_witness :
    (sanitizeInput ['p', 'а', 'y']).blocked = false ∧
    nfkcModel ((sanitizeInput ['p', 'а', 'y']).sanitized) =
      (sanitizeInput ['p', 'а', 'y']).sanitized ∧
    (sanitizeInput ((sanitizeInput ['p', 'а', 'y']).sanitized)).sanitized =
      (sanitizeInput ['p', 'а', 'y']).sanitized :=
  ⟨by decide, by decide,
   sanitize_idempotent_on_stable_text _ (by decide) (by decide)⟩

/-! ## Command and path validator (`src/security/validator.js`)

`validateCommand` depends on the ambient process environment through
`process.env.HOME` (used by the home-directory expansion in
`normalizeCommand` and by `expandPath`) and `process.cwd()` (the
`CONFIG.workspaceRoot`); both are passed explicitly. -/

structure SysEnv where
  home : List Char
  cwd : List Char

/-- The `replace(/\s+/g, ' ')` step of `normalizeCommand`: every maximal
whitespace run becomes a single space. -/
def collapseWs : List Char → List Char
  | [] => []
  | c :: rest =>
    if isWsJS c then
      match collapseWs rest with
      | ' ' :: tail => ' ' :: tail
      | tail => ' ' :: tail
    else c :: collapseWs rest

/-- `String.prototype.trim`. -/
def trimJS (s : List Char) : List Char :=
  ((s.dropWhile isWsJS).reverse.dropWhile isWsJS).reverse

/-- The `replace(/\b~\//g, HOME)` step of `normalizeCommand`.  The word
boundary before `~` (a non-word character) requires the preceding character
to be a word character, so `~/` at the start of the command or after a
space is NOT expanded.  The boolean argument tracks whether the previous
character of the original string is a word character (initially false). -/
def expandTilde (home : List Char) : Bool → List Char → List Char
  | _, [] => []
  | prevWord, '~' :: '/' :: rest =>
    if prevWord then home ++ expandTilde home false rest
    else '~' :: expandTilde home false ('/' :: rest)
  | _, c :: rest => c :: expandTilde home (isWordJS c) rest

/-- `normalizeCommand`: lowercase (modelled on ASCII), collapse whitespace,
trim, then expand `\b~\/`. -/
def normalizeCommand (sys : SysEnv) (command : List Char) : List Char :=
  expandTilde sys.home false (trimJS (collapseWs (command.map Char.toLower)))

/-- `CONFIG.blockedCommands`. -/
def blockedCommands : List (List Char) :=
  (["sudo", "su", "doas", "pkexec",
    "mkfs", "format", "fdisk", "dd",
    "shred", "wipe", "scrub",
    "chmod", "chown", "chgrp",
    "usermod", "useradd", "passwd",
    "nc", "netcat", "ncat",
    "telnet",
    "bash -i", "sh -i", "zsh -i",
    "kill", "killall", "pkill",
    "pip install", "npm install -g",
    "powershell -enc", "powershell -encoded",
    "cmd /c", "cmd /k",
    "rundll32", "regsvr32",
    "msiexec"] : List String).map String.toList

/-- Case-insensitive prefix test (`tok` given in lower case). -/
def tokAt : List Char → List Char → Bool
  | [], _ => true
  | _ :: _, [] => false
  | t :: ts, c :: cs => (c.toLower == t) && tokAt ts cs

/-- Left context allowed by `(^|\s|;)` in the blocked-command pattern. -/
def sepLeft (c : Char) : Bool := isWsJS c || c == ';'

/-- Right context allowed by `(\s|$|;|\|)` in the blocked-command pattern. -/
def sepRight (c : Char) : Bool := isWsJS c || c == ';' || c == '|'

/-- A blocked token matches at the head of `s` when it is a
case-insensitive prefix followed by a separator or the end. -/
def boundaryAt (tok s : List Char) : Bool :=
  tokAt tok s &&
    (match s.drop tok.length with
     | [] => true
     | c :: _ => sepRight c)

def boundaryMatchesAux (tok : List Char) : Option Char → List Char → Bool
  | _, [] => false
  | prev, c :: rest =>
    ((match prev with
      | none => true
      | some p => sepLeft p) && boundaryAt tok (c :: rest))
      || boundaryMatchesAux tok (some c) rest

/-- The test of `(^|\s|;)tok(\s|$|;|\|)` with the `i` flag: `tok` occurs
with a separator (or the string edge) on both sides. -/
def boundaryMatches (tok s : List Char) : Bool := boundaryMatchesAux tok none s

/-- `checkBlockedCommands`: every blocked token that boundary-matches the
normalized command, in table order. -/
def checkBlockedCommands (command : List Char) : List (List Char) :=
  blockedCommands.filter (fun tok => boundaryMatches tok command)

/-- `CONFIG.blockedPaths`. -/
def blockedPaths : List (List Char) :=
  (["/etc/ssh", "/etc/passwd", "~/.ssh", "~/.aws", "~/.config",
    "/var/log", "/proc", "/sys", "/dev",
    "C:\\Windows", "C:\\Program Files", "C:\\ProgramData"] :
    List String).map String.toList

/-- `expandPath`: home-directory expansion of a leading `~/`. -/
def expandPath (home p : List Char) : List Char :=
  if "~/".toList.isPrefixOf p then home ++ p.drop 1 else p

/-- Split on `/` (for the POSIX `path.resolve` model). -/
def splitOnSlash : List Char → List (List Char)
  | [] => [[]]
  | '/' :: rest => [] :: splitOnSlash rest
  | c :: rest =>
    match splitOnSlash rest with
    | seg :: segs => (c :: seg) :: segs
    | [] => [[c]]

def resolveSegs (segs : List (List Char)) : List (List Char) :=
  segs.foldl
    (fun acc seg =>
      if seg = [] ∨ seg = ['.'] then acc
      else if seg = ['.', '.'] then acc.dropLast
      else acc ++ [seg]) []

def joinSlash (segs : List (List Char)) : List Char :=
  segs.foldl (fun acc seg => acc ++ '/' :: seg) []

/-- Models POSIX `path.resolve(p)` against an absolute working directory:
absolute paths are normalized, relative ones are joined to `cwd` first. -/
def posixResolve (cwd p : List Char) : List Char :=
  let full := if p.head? = some '/' then p else cwd ++ '/' :: p
  let segs := resolveSegs (splitOnSlash full)
  if segs = [] then ['/'] else joinSlash segs

/-- The class `[\w\/.-]` of the path-extraction pattern. -/
def isPathChar (c : Char) : Bool := isWordJS c || c == '/' || c == '.' || c == '-'

/-- Worker for `extractPaths`; the fuel argument (initially the string
length, which every step strictly consumes ahead of) makes the recursion
structural. -/
def extractPathsAux : Nat → List Char → List (List Char)
  | 0, _ => []
  | _ + 1, [] => []
  | fuel + 1, c :: rest =>
    if isPathChar c then
      (c :: rest.takeWhile isPathChar) ::
        extractPathsAux fuel (rest.drop (rest.takeWhile isPathChar).length)
    else if c == '~' then
      (match rest.takeWhile isPathChar with
       | [] => extractPathsAux fuel rest
       | body => ('~' :: body) :: extractPathsAux fuel (rest.drop body.length))
    else extractPathsAux fuel rest

/-- All matches of `[\/~]?[\w\/.-]+` (the path-extraction pattern), left to
right and non-overlapping. -/
def extractPaths (s : List Char) : List (List Char) :=
  extractPathsAux s.length s

/-- The anchored test `/^\/[a-z]+|^C:\\/i`. -/
def absoluteStart (command : List Char) : Bool :=
  (match command with
   | '/' :: c :: _ => c.isAlpha
   | _ => false)
  || "c:\\".toList.isPrefixOf (command.map Char.toLower)

/-- `detectPathTraversal`: blocked sensitive paths (substring check on the
home-expanded, lowercased path), `..` traversal, and absolute paths that
resolve outside the workspace root. -/
def detectPathTraversal (sys : SysEnv) (command : List Char) :
    List (List Char) :=
  let part1 := blockedPaths.filter
    (fun b => containsSub ((expandPath sys.home b).map Char.toLower) command)
  let part2 :=
    if containsSub "../".toList command || containsSub "..\\".toList command
    then ["relative-traversal".toList] else []
  let part3 :=
    if absoluteStart command then
      (extractPaths command).foldr
        (fun p acc =>
          if p.head? = some '/' || "C:".toList.isPrefixOf p then
            if ¬ (posixResolve sys.cwd sys.cwd).isPrefixOf
                (posixResolve sys.cwd p) then
              ("absolute-outside-workspace: ".toList ++ p) :: acc
            else acc
          else acc) []
    else []
  part1 ++ part2 ++ part3

/-- The chaining operators of `detectCommandChaining`. -/
def chainOperators : List (List Char) :=
  ([";", "&&", "||", "|", "$", "`", "$("] : List String).map String.toList

def detectCommandChaining (command : List Char) : List (List Char) :=
  chainOperators.filter (fun op => containsSub op command)

/-- The class `[A-Z_]`. -/
def isUpperOrUnderscore (c : Char) : Bool := c.isUpper || c == '_'

/-- The class `[A-Za-z_]` (`[A-Z_]` under the `i` flag). -/
def isAlphaOrUnderscore (c : Char) : Bool := c.isAlpha || c == '_'

/-- First match of `/\$[A-Z_]+/`. -/
def firstDollarVar : List Char → Option (List Char)
  | [] => none
  | '$' :: rest =>
    match rest.takeWhile isUpperOrUnderscore with
    | [] => firstDollarVar rest
    | run => some ('$' :: run)
  | _ :: rest => firstDollarVar rest

/-- First match of `/\$\{[A-Z_]+\}/`. -/
def firstDollarBrace : List Char → Option (List Char)
  | [] => none
  | '$' :: '{' :: rest =>
    (match rest.takeWhile isUpperOrUnderscore with
     | [] => firstDollarBrace ('{' :: rest)
     | run =>
       if (rest.drop run.length).head? = some '}' then
         some ('$' :: '{' :: (run ++ ['}']))
       else firstDollarBrace ('{' :: rest))
  | _ :: rest => firstDollarBrace rest

/-- First match of `/%[A-Z_]+%/`. -/
def firstPercentVar : List Char → Option (List Char)
  | [] => none
  | '%' :: rest =>
    (match rest.takeWhile isUpperOrUnderscore with
     | [] => firstPercentVar rest
     | run =>
       if (rest.drop run.length).head? = some '%' then
         some ('%' :: (run ++ ['%']))
       else firstPercentVar rest)
  | _ :: rest => firstPercentVar rest

/-- First match of `/\$env:[A-Z_]+/i`. -/
def firstPsEnvVar : List Char → Option (List Char)
  | [] => none
  | c :: rest =>
    if tokAt "$env:".toList (c :: rest) then
      match ((c :: rest).drop 5).takeWhile isAlphaOrUnderscore with
      | [] => firstPsEnvVar rest
      | run => some ((c :: rest).take 5 ++ run)
    else firstPsEnvVar rest

/-- Order-preserving deduplication (`[...new Set(found)]`): keep the first
occurrence of each element. -/
def dedupKeepFirstAux (seen : List (List Char)) : List (List Char) → List (List Char)
  | [] => []
  | x :: rest =>
    if seen.contains x then dedupKeepFirstAux seen rest
    else x :: dedupKeepFirstAux (x :: seen) rest

def dedupKeepFirst (l : List (List Char)) : List (List Char) :=
  dedupKeepFirstAux [] l

/-- `detectEnvVarAccess`: the first match of each of the four variable
patterns, deduplicated preserving order. -/
def detectEnvVarAccess (command : List Char) : List (List Char) :=
  dedupKeepFirst
    (([firstDollarVar command, firstDollarBrace command,
       firstPercentVar command, firstPsEnvVar command]).filterMap id)

def isNonWs (c : Char) : Bool := !(isWsJS c)

/-- The credential patterns of `detectCredentialPatterns`, paired with
their `pattern.toString()` evidence strings. -/
def credPatterns : List (String × Rx) :=
  [("/password\\s*=\\s*\\S+/i",
    rseq [rstrI "password", rws0, rchar '=', rws0, rplus (.cls isNonWs)]),
   ("/token\\s*=\\s*\\S+/i",
    rseq [rstrI "token", rws0, rchar '=', rws0, rplus (.cls isNonWs)]),
   ("/secret\\s*=\\s*\\S+/i",
    rseq [rstrI "secret", rws0, rchar '=', rws0, rplus (.cls isNonWs)]),
   ("/key\\s*=\\s*[a-zA-Z0-9]{20,}/i",
    rseq [rstrI "key", rws0, rchar '=', rws0, ratleast (.cls Char.isAlphanum) 20]),
   ("/api[_-]?key\\s*=\\s*\\S+/i",
    rseq [rstrI "api", ropt (.cls (fun c => c == '_' || c == '-')), rstrI "key",
      rws0, rchar '=', rws0, rplus (.cls isNonWs)]),
   ("/auth[_-]?token\\s*=\\s*\\S+/i",
    rseq [rstrI "auth", ropt (.cls (fun c => c == '_' || c == '-')), rstrI "token",
      rws0, rchar '=', rws0, rplus (.cls isNonWs)]),
   ("/bearer\\s+[a-zA-Z0-9\\-_]{20,}/i",
    rseq [rstrI "bearer", rws1,
      ratleast (.cls (fun c => c.isAlphanum || c == '-' || c == '_')) 20]),
   ("/sk-[a-zA-Z0-9]{20,}/i",
    rseq [rstrI "sk-", ratleast (.cls Char.isAlphanum) 20]),
   ("/ghp_[a-zA-Z0-9]{20,}/i",
    rseq [rstrI "ghp_", ratleast (.cls Char.isAlphanum) 20])]

def detectCredentialPatterns (command : List Char) : List String :=
  (credPatterns.filter (fun p => rtest p.2 command)).map Prod.fst

/-- The tokens of the network-trigger test
`/\b(curl|wget|Invoke-WebRequest)\b/i`. -/
def fetchTokens : List (List Char) :=
  (["curl", "wget", "invoke-webrequest"] : List String).map String.toList

def wordBoundedAt (tok s : List Char) : Bool :=
  tokAt tok s &&
    (match s.drop tok.length with
     | [] => true
     | c :: _ => !(isWordJS c))

def wordBoundedAux (tok : List Char) : Option Char → List Char → Bool
  | _, [] => false
  | prev, c :: rest =>
    ((match prev with
      | none => true
      | some p => !(isWordJS p)) && wordBoundedAt tok (c :: rest))
      || wordBoundedAux tok (some c) rest

def hasFetchUtility (command : List Char) : Bool :=
  fetchTokens.any (fun tok => wordBoundedAux tok none command)

/-- The class `[^\s"]` of the URL-extraction pattern. -/
def isUrlChar (c : Char) : Bool := !(isWsJS c) && c != '"'

/-- Match of `https?:\/\/[^\s"]+` at the head of `s` (the scheme is
case-insensitive under the `gi` flags; the matched text keeps its original
case). -/
def urlAt (s : List Char) : Option (List Char) :=
  if tokAt "https://".toList s then
    match (s.drop 8).takeWhile isUrlChar with
    | [] => none
    | run => some (s.take 8 ++ run)
  else if tokAt "http://".toList s then
    match (s.drop 7).takeWhile isUrlChar with
    | [] => none
    | run => some (s.take 7 ++ run)
  else none

/-- Worker for `extractUrls` (fuel as in `extractPathsAux`). -/
def extractUrlsAux : Nat → List Char → List (List Char)
  | 0, _ => []
  | _ + 1, [] => []
  | fuel + 1, c :: rest =>
    match urlAt (c :: rest) with
    | some u => u :: extractUrlsAux fuel (rest.drop (u.length - 1))
    | none => extractUrlsAux fuel rest

/-- All matches of the URL-extraction pattern, left to right and
non-overlapping. -/
def extractUrls (s : List Char) : List (List Char) :=
  extractUrlsAux s.length s

/-- Drop everything up to and including the last `@` (the WHATWG URL
parser treats it as the userinfo terminator). -/
def dropThroughLastAt (s : List Char) : List Char :=
  (s.reverse.takeWhile (fun c => c != '@')).reverse

/-- Models `new URL(url).hostname` for the http(s) URLs produced by the
URL-extraction pattern: the authority runs to the first `/`, `?` or `#`;
userinfo before the last `@` is dropped; a bracketed IPv6 host keeps its
brackets, otherwise the port after `:` is dropped; the hostname is
lowercased.  An empty host models the `new URL` constructor throwing.
Percent-decoding and punycode are not exercised by the inputs considered
here and are not modelled. -/
def parseHostname (url : List Char) : Option (List Char) :=
  let afterScheme :=
    if tokAt "https://".toList url then url.drop 8 else url.drop 7
  let authority :=
    afterScheme.takeWhile (fun c => c != '/' && c != '?' && c != '#')
  let hostPort := dropThroughLastAt authority
  let host :=
    if hostPort.head? = some '[' then
      hostPort.takeWhile (fun c => c != ']') ++
        (if hostPort.contains ']' then [']'] else [])
    else hostPort.takeWhile (fun c => c != ':')
  if host = [] then none else some (host.map Char.toLower)

/-- `CONFIG.blockedDomains`. -/
def blockedDomains : List (List Char) :=
  (["pastebin.com", "hastebin.com", "ghostbin.co", "termbin.com",
    "requestbin.net"] : List String).map String.toList

/-- The `1[6-9]|2[0-9]|3[01]` alternative of the 172.16/12 pattern. -/
def isPriv172 : List Char → Bool
  | '1' :: '7' :: '2' :: '.' :: d1 :: d2 :: '.' :: _ =>
    (d1 == '1' && ['6', '7', '8', '9'].contains d2)
      || (d1 == '2' && d2.isDigit)
      || (d1 == '3' && (d2 == '0' || d2 == '1'))
  | _ => false

def startsWithLit (s : List Char) (lit : String) : Bool :=
  lit.toList.isPrefixOf s

/-- `isPrivateIP`: the private/loopback/link-local prefix patterns, in
source order. -/
def isPrivateIP (hostname : List Char) : Bool :=
  startsWithLit hostname "127." || startsWithLit hostname "10."
    || isPriv172 hostname
    || startsWithLit hostname "192.168." || startsWithLit hostname "169.254."
    || startsWithLit hostname "0."
    || startsWithLit (hostname.map Char.toLower) "fc00:"
    || startsWithLit (hostname.map Char.toLower) "fe80:"

/-- Result of `validateNetworkCommand`. -/
inductive NetCheck where
  | ok : NetCheck
  | bad (message url : List Char) : NetCheck
deriving DecidableEq

/-- The per-URL loop of `validateNetworkCommand`: the first URL that fails
to parse, hits a blocked domain, or addresses a private IP produces the
failure. -/
def checkUrls : List (List Char) → NetCheck
  | [] => .ok
  | url :: rest =>
    match parseHostname url with
    | none => .bad "Invalid URL in command".toList url
    | some domain =>
      if blockedDomains.any
          (fun b => domain == b || ('.' :: b).isSuffixOf domain) then
        .bad ("Blocked domain: ".toList ++ domain) url
      else if isPrivateIP domain then
        .bad "Private IP access blocked".toList url
      else checkUrls rest

def validateNetworkCommand (command : List Char) : NetCheck :=
  checkUrls (extractUrls command)

/-- A `ValidationIssue` pushed by `validateCommand`, with the payload each
branch records. -/
inductive Issue where
  | blockedCommand (patterns : List (List Char))
  | pathTraversal (paths : List (List Char))
  | commandChaining (operators : List (List Char))
  | environmentAccess (vars : List (List Char))
  | credentialExposure (patterns : List String)
  | blockedDomain (message url : List Char)
deriving DecidableEq

def Issue.severity : Issue → String
  | .blockedCommand _ => "critical"
  | .pathTraversal _ => "critical"
  | .commandChaining _ => "high"
  | .environmentAccess _ => "medium"
  | .credentialExposure _ => "critical"
  | .blockedDomain _ _ => "high"

def Issue.kind : Issue → String
  | .blockedCommand _ => "blocked-command"
  | .pathTraversal _ => "path-traversal"
  | .commandChaining _ => "command-chaining"
  | .environmentAccess _ => "environment-access"
  | .credentialExposure _ => "credential-exposure"
  | .blockedDomain _ _ => "blocked-domain"

structure ValidationResult where
  valid : Bool
  command : List Char
  normalized : List Char
  issues : List Issue
  riskLevel : String

/-- Embedding of `validateCommand`.  The six checks contribute issues in
source order; `valid` starts true and is set false by the blocked-command,
path-traversal, credential and blocked-domain branches; `riskLevel` is the
last writer among the firing branches (the source overwrites it in branch
order). -/
def networkIssues (normalized : List Char) : List Issue :=
  if hasFetchUtility normalized then
    match validateNetworkCommand normalized with
    | .ok => []
    | .bad m u => [.blockedDomain m u]
  else []

def validateCommand (sys : SysEnv) (command : List Char) : ValidationResult :=
  let normalized := normalizeCommand sys command
  let blocked := checkBlockedCommands normalized
  let traversal := detectPathTraversal sys normalized
  let chaining := detectCommandChaining normalized
  let envVars := detectEnvVarAccess normalized
  let credentials := detectCredentialPatterns normalized
  let net : List Issue := networkIssues normalized
  { valid := blocked.isEmpty && traversal.isEmpty && credentials.isEmpty
      && net.isEmpty
    command := command
    normalized := normalized
    issues :=
      (if blocked ≠ [] then [.blockedCommand blocked] else [])
        ++ (if traversal ≠ [] then [.pathTraversal traversal] else [])
        ++ (if chaining ≠ [] then [.commandChaining chaining] else [])
        ++ (if envVars ≠ [] then [.environmentAccess envVars] else [])
        ++ (if credentials ≠ [] then [.credentialExposure credentials] else [])
        ++ net
    riskLevel :=
      let r1 := if blocked ≠ [] then "critical" else "low"
      let r2 := if traversal ≠ [] then "critical" else r1
      let r3 := if chaining ≠ [] then "high" else r2
      let r4 := if credentials ≠ [] then "critical" else r3
      if net ≠ [] then "high" else r4 }

/-! ### Claim theorems about the validator -/

/-- The network check contributes either nothing or a single
blocked-domain issue. -/
theorem networkIssues_cases (normalized : List Char) :
    networkIssues normalized = [] ∨
      ∃ m u, networkIssues normalized = [Issue.blockedDomain m u] := by
  unfold networkIssues
  by_cases h : hasFetchUtility normalized
  · rw [if_pos h]
    cases hv : validateNetworkCommand normalized with
    | ok => exact Or.inl rfl
    | bad m u => exact Or.inr ⟨m, u, rfl⟩
  · rw [if_neg h]
    exact Or.inl rfl

/-- C2 counterexample: a command whose only issue is a blocked-domain
finding (severity high, not critical) still gets `valid = false`, so
"`valid == false` iff some issue is critical" fails. -/
theorem blocked_domain_invalid_without_critical :
    (validateCommand ⟨"/root".toList, "/work".toList⟩
        "curl https://pastebin.com/abc".toList).valid = false ∧
    ∀ i ∈ (validateCommand ⟨"/root".toList, "/work".toList⟩
        "curl https://pastebin.com/abc".toList).issues,
      Issue.severity i ≠ "critical" := by
  constructor
  · decide
  · decide

/-- C2 amended: `valid = false` holds if and only if some issue has
severity critical OR is a blocked-domain issue (which the source emits
with severity high while still invalidating the command). -/
theorem valid_iff_critical_or_blocked_domain (sys : SysEnv)
    (command : List Char) :
    (validateCommand sys command).valid = false ↔
      ∃ i ∈ (validateCommand sys command).issues,
        Issue.severity i = "critical" ∨ Issue.kind i = "blocked-domain" := by
  rcases networkIssues_cases (normalizeCommand sys command) with hn | ⟨m, u, hn⟩ <;>
    by_cases hb : checkBlockedCommands (normalizeCommand sys command) = [] <;>
    by_cases ht : detectPathTraversal sys (normalizeCommand sys command) = [] <;>
    by_cases hc : detectCommandChaining (normalizeCommand sys command) = [] <;>
    by_cases he : detectEnvVarAccess (normalizeCommand sys command) = [] <;>
    by_cases hcr : detectCredentialPatterns (normalizeCommand sys command) = [] <;>
    simp [validateCommand, hb, ht, hc, he, hcr, hn, Issue.severity, Issue.kind]

/-- C4: a blocked-command token occurring in the normalized command with a
word/separator boundary on both sides forces `valid = false` and a critical
blocked-command issue; and when no blocked token occurs with such
boundaries (even if one occurs as a plain substring of a longer token),
the blocked-command check matches nothing. -/
theorem blocked_command_word_boundaries :
    (∀ (sys : SysEnv) (command : List Char),
        (∃ tok ∈ blockedCommands,
          boundaryMatches tok (normalizeCommand sys command) = true) →
        (validateCommand sys command).valid = false ∧
        ∃ i ∈ (validateCommand sys command).issues,
          Issue.kind i = "blocked-command" ∧ Issue.severity i = "critical") ∧
    (∀ (sys : SysEnv) (command : List Char),
        (∀ tok ∈ blockedCommands,
          boundaryMatches tok (normalizeCommand sys command) = false) →
        checkBlockedCommands (normalizeCommand sys command) = []) := by
  constructor
  · intro sys command h
    obtain ⟨tok, htok, hmatch⟩ := h
    have hne : checkBlockedCommands (normalizeCommand sys command) ≠ [] := by
      intro he
      have hmem : tok ∈ checkBlockedCommands (normalizeCommand sys command) :=
        List.mem_filter.mpr ⟨htok, hmatch⟩
      rw [he] at hmem
      cases hmem
    rcases hl : checkBlockedCommands (normalizeCommand sys command) with _ | ⟨a, as⟩
    · exact absurd hl hne
    · constructor
      · simp [validateCommand, hl]
      · refine ⟨Issue.blockedCommand (a :: as), ?_, rfl, rfl⟩
        simp [validateCommand, hl]
  · intro sys command h
    unfold checkBlockedCommands
    rw [List.filter_eq_nil_iff]
    intro tok htok
    rw [h tok htok]
    exact Bool.false_ne_true

/-- Witness for C4: `sudo rm -rf /` boundary-matches the token `sudo` and
is invalidated with a critical blocked-command issue, while in
`cat mysudo.txt` the substring `sudo` (inside the longer token
`mysudo.txt`) boundary-matches nothing. -/
theorem blocked_command_word_boundaries_witness :
    (∃ tok ∈ blockedCommands,
      boundaryMatches tok (normalizeCommand ⟨"/root".toList, "/work".toList⟩
        "sudo rm -rf /".toList) = true) ∧
    ((validateCommand ⟨"/root".toList, "/work".toList⟩
        "sudo rm -rf /".toList).valid = false ∧
      ∃ i ∈ (validateCommand ⟨"/root".toList, "/work".toList⟩
          "sudo rm -rf /".toList).issues,
        Issue.kind i = "blocked-command" ∧ Issue.severity i = "critical") ∧
    (∀ tok ∈ blockedCommands,
      boundaryMatches tok (normalizeCommand ⟨"/root".toList, "/work".toList⟩
        "cat mysudo.txt".toList) = false) ∧
    checkBlockedCommands (normalizeCommand ⟨"/root".toList, "/work".toList⟩
      "cat mysudo.txt".toList) = [] :=
  ⟨by decide,
   blocked_command_word_boundaries.1 _ _ (by decide),
   by decide,
   blocked_command_word_boundaries.2 _ _ (by decide)⟩
